import Mathlib

/-!
Verification of the crypto dashboard (src/app.py).

Shallow embedding conventions:
* Python floats become `Rat` (the claims concern threshold comparisons and
  record plumbing, where rationals are faithful).
* Timestamps (`datetime.utcnow()`) become `Nat`, since only identity and
  ordering of timestamps matter to the claims.
* The pandas history DataFrame becomes a `List Observation`; `pd.concat`
  with `ignore_index=True` becomes list append.
* JSON mappings become association lists `List (String × _)`.
* The HTTP request of `fetch_live_prices` is modelled by an explicit
  outcome argument (`HttpOutcome`), and the returned record carries a
  `madeCall` flag recording whether the request was issued, plus the list
  of error messages shown via `st.error`.
-/

namespace CryptoDashboard

/-- The static display-name to API-identifier table (`COINS` in src/app.py). -/
def COINS : List (String × String) :=
  [ ("Bitcoin (BTC)", "bitcoin")
  , ("Ethereum (ETH)", "ethereum")
  , ("Solana (SOL)", "solana")
  , ("Tether (USDT)", "tether")
  , ("BNB (BNB)", "binancecoin")
  , ("XRP (XRP)", "ripple") ]

/-- Constant `FIAT_CURRENCY` of src/app.py. -/
def FIAT_CURRENCY : String := "usd"

/-- One entry of the JSON response of the price API: the fields
`usd` and `usd_24h_change`, each possibly missing. -/
structure RawEntry where
  usd : Option Rat
  usd_24h_change : Option Rat
deriving Repr, DecidableEq

/-- One cleaned entry produced by `fetch_live_prices`: price and 24h change,
both present (`float(...)` conversion is the identity on our rationals). -/
structure Cleaned where
  price : Rat
  change_24h : Rat
deriving Repr, DecidableEq

/-- Outcome of the HTTP GET in `fetch_live_prices`: either a parsed JSON
body, or a `requests.exceptions.RequestException` (network error, non-2xx
status via `raise_for_status`, or timeout) carrying its message. -/
inductive HttpOutcome where
  | ok (raw : List (String × RawEntry))
  | err (msg : String)
deriving Repr, DecidableEq

/-- The value returned by `fetch_live_prices`, together with the error
messages it showed (`st.error`) and whether it issued the HTTP request. -/
structure FetchResult where
  cleaned : List (String × Cleaned)
  errors : List String
  madeCall : Bool
deriving Repr, DecidableEq

/-- The cleaning loop body of `fetch_live_prices` (lines 46-57 of
src/app.py): skip the entry if `price is None`, else keep the price and
the change defaulted to `0.0`. -/
def cleanEntry (e : String × RawEntry) : Option (String × Cleaned) :=
  match e.2.usd with
  | none => none
  | some p => some (e.1, { price := p, change_24h := e.2.usd_24h_change.getD 0 })

/-- Function `fetch_live_prices` of src/app.py: empty selection short-circuits to an
empty mapping with no request; a request error is caught, reported, and
yields an empty mapping; a successful response is cleaned entrywise. -/
def fetch_live_prices (selected_coin_ids : List String) (http : HttpOutcome) :
    FetchResult :=
  if selected_coin_ids.isEmpty then
    { cleaned := [], errors := [], madeCall := false }
  else
    match http with
    | .err e =>
        { cleaned := []
        , errors := ["❌ Error calling CoinGecko API: " ++ e]
        , madeCall := true }
    | .ok raw =>
        { cleaned := raw.filterMap cleanEntry, errors := [], madeCall := true }

/-- Function `classify_risk` of src/app.py. -/
def classify_risk (change_24h : Rat) : String :=
  if 10 ≤ |change_24h| then "HIGH"
  else if 5 ≤ |change_24h| then "MEDIUM"
  else "LOW"

/-- One row of the session-state history DataFrame. -/
structure Observation where
  timestamp : Nat
  coin_name : String
  coin_id : String
  price : Rat
  change_24h : Rat
  risk : String
deriving Repr, DecidableEq

/-- Reversed table `id_to_display = \x7bv: k for k, v in COINS.items()\x7d` (the identifiers in
`COINS` are pairwise distinct, so first-match lookup agrees with the dict). -/
def id_to_display : List (String × String) := COINS.map (fun p => (p.2, p.1))

/-- The row dict built for one coin inside `update_history`
(lines 86-99 of src/app.py). -/
def mkRow (now : Nat) (e : String × Cleaned) : Observation :=
  { timestamp := now
  , coin_name := (id_to_display.lookup e.1).getD e.1
  , coin_id := e.1
  , price := e.2.price
  , change_24h := e.2.change_24h
  , risk := classify_risk e.2.change_24h }

/-- Function `update_history` of src/app.py: build one row per fetched coin, and if
any rows were built, concatenate them after the existing history. -/
def update_history (history : List Observation) (now : Nat)
    (live_data : List (String × Cleaned)) : List Observation :=
  let new_rows := live_data.map (mkRow now)
  if new_rows.isEmpty then history else history ++ new_rows

/-- Half-up rounding to a number of decimal digits, modelling Python
`round(x, ndigits)` (they differ only on exact ties, which the claims do
not touch). -/
def roundTo (ndigits : Nat) (x : Rat) : Rat :=
  (round (x * (10 : Rat) ^ ndigits) : Int) / (10 : Rat) ^ ndigits

/-- One row of the snapshot DataFrame of `get_latest_snapshot_df`. -/
structure SnapshotRow where
  coin : String
  priceUSD : Rat
  changePct : Rat
  riskLevel : String
deriving Repr, DecidableEq

/-- The row dict built for one coin inside `get_latest_snapshot_df`
(lines 115-125 of src/app.py). -/
def snapRow (e : String × Cleaned) : SnapshotRow :=
  { coin := (id_to_display.lookup e.1).getD e.1
  , priceUSD := roundTo 4 e.2.price
  , changePct := roundTo 2 e.2.change_24h
  , riskLevel := classify_risk e.2.change_24h }

/-- Function `get_latest_snapshot_df` of src/app.py (the empty case yields an empty
frame, i.e. the empty list). -/
def get_latest_snapshot_df (live_data : List (String × Cleaned)) :
    List SnapshotRow :=
  live_data.map snapRow

/-- The session state touched by the fetch button: the history log and the
last successful fetch result. -/
structure AppState where
  history : List Observation
  last_live_data : List (String × Cleaned)
deriving Repr, DecidableEq

/-- Session-state initialisation: empty history, no live data. -/
def initialState : AppState := { history := [], last_live_data := [] }

/-- The fetch-button handler of `main` (lines 163-170 of src/app.py):
fetch, and only if the result is non-empty update the history, store the
result, and show the success message. Returns the new state and the
messages shown. -/
def fetchButtonStep (s : AppState) (selected_ids : List String) (now : Nat)
    (http : HttpOutcome) : AppState × List String :=
  let fr := fetch_live_prices selected_ids http
  if fr.cleaned.isEmpty then (s, fr.errors)
  else
    ( { history := update_history s.history now fr.cleaned
      , last_live_data := fr.cleaned }
    , fr.errors ++ ["✅ Data refreshed successfully!"] )

/-- The history filter of `main` (lines 217-219 of src/app.py):
`history_df[history_df["coin_name"].isin(selected_coins_display)]`. -/
def filterHistory (history : List Observation)
    (selected_coins_display : List String) : List Observation :=
  history.filter (fun r => selected_coins_display.contains r.coin_name)

/-- Overwriting insertion into the pivot cell map (one cell per
(timestamp, coin_name) group). -/
def setCell (m : List ((Nat × String) × Rat)) (k : Nat × String) (v : Rat) :
    List ((Nat × String) × Rat) :=
  match m with
  | [] => [(k, v)]
  | (k1, v1) :: rest =>
      if k1 = k then (k, v) :: rest else (k1, v1) :: setCell rest k v

/-- The cell map of `pivot_table(index="timestamp", columns="coin_name",
values="price", aggfunc="last")`: the rows are traversed in frame order and
each row overwrites its group's cell, so every (timestamp, coin_name) group
retains the price of its last row. -/
def cells (rows : List Observation) : List ((Nat × String) × Rat) :=
  rows.foldl (fun m r => setCell m (r.timestamp, r.coin_name) r.price) []

/-- The row index of the pivoted chart frame after `.sort_index()`: the
distinct timestamps of the filtered history, in ascending order. -/
def tsIndex (rows : List Observation) : List Nat :=
  List.insertionSort (· ≤ ·) ((rows.map (fun r => r.timestamp)).dedup)

/-- The column labels of the pivoted chart frame: the distinct coin names
of the filtered history. -/
def colNames (rows : List Observation) : List String :=
  (rows.map (fun r => r.coin_name)).dedup

/-- The chart frame built at lines 224-229 of src/app.py: one row per
distinct timestamp (ascending after `sort_index`), one column per coin
name, each cell the group's entry in the cell map (`none` plays NaN). -/
def pivotChart (rows : List Observation) :
    List (Nat × List (String × Option Rat)) :=
  (tsIndex rows).map
    (fun t => (t, (colNames rows).map (fun c => (c, (cells rows).lookup (t, c)))))

/-- Declarative reading of `aggfunc="last"`: the price of the last row of
the log carrying the given timestamp and coin name (`none` if there is no
such row). -/
def lastMatch (t : Nat) (c : String) : List Observation → Option Rat
  | [] => none
  | r :: rs =>
      match lastMatch t c rs with
      | some v => some v
      | none =>
          if r.timestamp = t ∧ r.coin_name = c then some r.price else none

/-- Repeated presses of the fetch button with successful fetches: fold
`update_history` over a list of (timestamp, cleaned mapping) batches,
starting from the empty history of a fresh session. -/
def applyBatches (batches : List (Nat × List (String × Cleaned))) :
    List Observation :=
  batches.foldl (fun h b => update_history h b.1 b.2) []

/-! ### Helper lemmas -/

/-- Unfolded, `update_history` is exactly appending the freshly built rows (the
`if new_rows:` guard is vacuous for the result, since appending nothing is
the identity). -/
theorem update_history_eq (h : List Observation) (now : Nat)
    (live : List (String × Cleaned)) :
    update_history h now live = h ++ live.map (mkRow now) := by
  cases live with
  | nil => simp [update_history]
  | cons e es => rfl

/-- Folding `update_history` over batches from any starting history appends
the concatenation of the batches' row lists. -/
theorem applyBatches_from (batches : List (Nat × List (String × Cleaned))) :
    ∀ h : List Observation,
      batches.foldl (fun h b => update_history h b.1 b.2) h
        = h ++ (batches.map (fun b => b.2.map (mkRow b.1))).flatten := by
  induction batches with
  | nil => intro h; simp
  | cons b bs ih =>
      intro h
      rw [List.foldl_cons, ih, update_history_eq]
      simp [List.append_assoc]

/-- Looking up the key just written into the cell map. -/
theorem lookup_setCell_self (m : List ((Nat × String) × Rat))
    (k : Nat × String) (v : Rat) : (setCell m k v).lookup k = some v := by
  induction m with
  | nil => simp [setCell, List.lookup]
  | cons p rest ih =>
      obtain ⟨k1, v1⟩ := p
      by_cases h : k1 = k
      · simp [setCell, h, List.lookup]
      · simp [setCell, h, List.lookup, ih, beq_false_of_ne (Ne.symm h)]

/-- Writing one cell leaves every other key's lookup unchanged. -/
theorem lookup_setCell_ne (m : List ((Nat × String) × Rat))
    (k k' : Nat × String) (v : Rat) (h : k' ≠ k) :
    (setCell m k v).lookup k' = m.lookup k' := by
  induction m with
  | nil =>
      simp [setCell, List.lookup, beq_false_of_ne h]
  | cons p rest ih =>
      obtain ⟨k1, v1⟩ := p
      by_cases h1 : k1 = k
      · subst h1
        simp [setCell, List.lookup, beq_false_of_ne h, beq_false_of_ne (Ne.symm h)]
      · by_cases h2 : k1 = k'
        · subst h2
          simp [setCell, h1, List.lookup]
        · simp [setCell, h1, List.lookup, beq_false_of_ne (Ne.symm h2), ih]

/-- Folding the pivot rows into a cell map from any start: each group's
lookup yields the last matching row's price, falling back to the start map. -/
theorem lookup_cells_from (rows : List Observation) :
    ∀ (m : List ((Nat × String) × Rat)) (t : Nat) (c : String),
      (rows.foldl (fun m r => setCell m (r.timestamp, r.coin_name) r.price) m).lookup (t, c)
        = match lastMatch t c rows with
          | some v => some v
          | none => m.lookup (t, c) := by
  induction rows with
  | nil => intro m t c; rfl
  | cons r rs ih =>
      intro m t c
      rw [List.foldl_cons, ih]
      by_cases hc : r.timestamp = t ∧ r.coin_name = c
      · obtain ⟨h1, h2⟩ := hc
        subst h1; subst h2
        rw [lookup_setCell_self]
        cases hlm : lastMatch r.timestamp r.coin_name rs <;>
          simp [lastMatch, hlm]
      · have hne : (t, c) ≠ (r.timestamp, r.coin_name) := by
          intro he
          exact hc ⟨(Prod.mk.injEq _ _ _ _ ▸ he).1.symm,
            (Prod.mk.injEq _ _ _ _ ▸ he).2.symm⟩
        rw [lookup_setCell_ne _ _ _ _ hne]
        cases hlm : lastMatch t c rs <;> simp [lastMatch, hlm, hc]

/-- The pivot cell of a group is the last matching row's price. -/
theorem lookup_cells (rows : List Observation) (t : Nat) (c : String) :
    (cells rows).lookup (t, c) = lastMatch t c rows := by
  rw [cells, lookup_cells_from]
  cases hlm : lastMatch t c rows <;> simp [List.lookup]

/-! ### Claim theorems -/

/-- C7: with an empty selected-asset list, `fetch_live_prices` returns an
empty result, shows no error, and never issues the HTTP request, whatever
the network would have answered. -/
theorem fetch_empty_selection (http : HttpOutcome) :
    fetch_live_prices [] http
      = { cleaned := [], errors := [], madeCall := false } := rfl

/-- C9: appending an empty fetch-result mapping leaves the history log
exactly unchanged: no row is added and the existing contents are returned
untouched. -/
theorem update_history_empty_noop (h : List Observation) (now : Nat) :
    update_history h now [] = h := rfl

/-- C2: when the API call fails (network error, non-2xx, timeout), the
fetch returns normally with an empty result mapping and the error message
is the only message shown; the button handler leaves the whole session
state, the history log included, unchanged. -/
theorem fetch_failure_keeps_state (s : AppState) (i0 : String)
    (ids : List String) (now : Nat) (e : String) :
    (fetch_live_prices (i0 :: ids) (.err e)).cleaned = []
    ∧ fetchButtonStep s (i0 :: ids) now (.err e)
        = (s, ["❌ Error calling CoinGecko API: " ++ e]) :=
  ⟨rfl, rfl⟩

/-- C3: `update_history` appends the rows built from the fetch result, in
order, after the untouched existing log; consequently a sequence of batches
applied to an empty history yields exactly the concatenation of their rows,
whose length is the total number of fetched records. -/
theorem history_append_in_order
    (batches : List (Nat × List (String × Cleaned)))
    (h : List Observation) (now : Nat) (live : List (String × Cleaned)) :
    update_history h now live = h ++ live.map (mkRow now)
    ∧ applyBatches batches
        = (batches.map (fun b => b.2.map (mkRow b.1))).flatten
    ∧ (applyBatches batches).length
        = (batches.map (fun b => b.2.length)).sum := by
  refine ⟨update_history_eq h now live, ?_, ?_⟩
  · rw [applyBatches, applyBatches_from]
    rfl
  · rw [applyBatches, applyBatches_from]
    simp [Function.comp_def]

/-- C8: every row ever built carries `risk = classify_risk change_24h`, and
hence every record of a history grown from the empty log by repeated
updates satisfies the invariant. -/
theorem risk_label_invariant (now : Nat) (e : String × Cleaned)
    (batches : List (Nat × List (String × Cleaned))) :
    (mkRow now e).risk = classify_risk (mkRow now e).change_24h
    ∧ ((applyBatches batches).all
        (fun r => r.risk == classify_risk r.change_24h)) = true := by
  refine ⟨rfl, ?_⟩
  rw [List.all_eq_true]
  intro r hr
  rw [applyBatches, applyBatches_from, List.nil_append] at hr
  obtain ⟨l, hl, hrl⟩ := List.mem_flatten.mp hr
  obtain ⟨b, _, rfl⟩ := List.mem_map.mp hl
  obtain ⟨a, _, rfl⟩ := List.mem_map.mp hrl
  simp [mkRow]

/-- C1: `classify_risk` returns HIGH iff the absolute change is at least
10, MEDIUM iff it lies in [5, 10), and LOW iff it is below 5; the boundary
inputs 5 and 10 yield MEDIUM and HIGH. Being a Lean function of its
argument alone, it is deterministic, total and side-effect-free. -/
theorem classify_risk_correct (c : Rat) :
    (classify_risk c = "HIGH" ↔ 10 ≤ |c|)
    ∧ (classify_risk c = "MEDIUM" ↔ 5 ≤ |c| ∧ |c| < 10)
    ∧ (classify_risk c = "LOW" ↔ |c| < 5)
    ∧ classify_risk 5 = "MEDIUM" ∧ classify_risk 10 = "HIGH" := by
  have h5 : classify_risk 5 = "MEDIUM" := by norm_num [classify_risk]
  have h10 : classify_risk 10 = "HIGH" := by norm_num [classify_risk]
  refine ⟨?_, ?_, ?_, h5, h10⟩ <;>
    · unfold classify_risk
      split_ifs with h1 h2 <;> simp_all <;> linarith

/-- C4: filtering the history by a list of selected display names returns
only rows whose coin name is among the selected ones. -/
theorem filter_excludes_unselected (history : List Observation)
    (sel : List String) (r : Observation) (hr : r ∈ filterHistory history sel) :
    r.coin_name ∈ sel := by
  have hc := List.of_mem_filter hr
  simpa using hc

/-- Witness for C4 at a concrete one-row history. -/
theorem filter_excludes_unselected_witness :
    (Observation.mk 0 "Bitcoin (BTC)" "bitcoin" 1 0 "LOW").coin_name
      ∈ ["Bitcoin (BTC)"] :=
  filter_excludes_unselected
    [Observation.mk 0 "Bitcoin (BTC)" "bitcoin" 1 0 "LOW"] ["Bitcoin (BTC)"]
    (Observation.mk 0 "Bitcoin (BTC)" "bitcoin" 1 0 "LOW")
    (by simp [filterHistory])

/-- Characterisation of the cleaning loop body: `cleanEntry` succeeds
exactly on entries with a present price, producing that price and the
change defaulted to 0. -/
theorem cleanEntry_eq_some (x : String × RawEntry) (y : String × Cleaned) :
    cleanEntry x = some y
      ↔ x.2.usd = some y.2.price ∧ y.1 = x.1
          ∧ y.2.change_24h = x.2.usd_24h_change.getD 0 := by
  obtain ⟨a, info⟩ := x
  obtain ⟨b, p, ch⟩ := y
  cases husd : info.usd with
  | none => simp [cleanEntry, husd]
  | some q =>
      simp [cleanEntry, husd]
      constructor
      · rintro ⟨rfl, rfl, rfl⟩; exact ⟨rfl, rfl, rfl⟩
      · rintro ⟨rfl, rfl, rfl⟩; exact ⟨rfl, rfl, rfl⟩

/-- C6: on a successful response, the cleaned result holds (id, record)
exactly when the response has an entry for that id whose price field is
present and equals the record's price, the record's change being the
response's change field defaulted to 0 when missing — so entries missing a
price are dropped and every kept entry carries its price and defaulted
change. -/
theorem fetch_success_cleaning (i0 : String) (ids : List String)
    (raw : List (String × RawEntry)) (a : String) (c : Cleaned) :
    (a, c) ∈ (fetch_live_prices (i0 :: ids) (.ok raw)).cleaned
      ↔ ∃ info : RawEntry, (a, info) ∈ raw ∧ info.usd = some c.price
          ∧ c.change_24h = info.usd_24h_change.getD 0 := by
  show (a, c) ∈ raw.filterMap cleanEntry ↔ _
  rw [List.mem_filterMap]
  constructor
  · rintro ⟨⟨a1, info⟩, hmem, hce⟩
    rw [cleanEntry_eq_some] at hce
    obtain ⟨husd, hb, hch⟩ := hce
    rw [show (a, c).1 = a from rfl] at hb
    subst hb
    exact ⟨info, hmem, husd, hch⟩
  · rintro ⟨info, hmem, husd, hch⟩
    exact ⟨(a, info), hmem, by rw [cleanEntry_eq_some]; exact ⟨husd, rfl, hch⟩⟩

/-- C5: the chart frame has one row per distinct timestamp of the filtered
history, its row index is strictly ascending, and every cell holds the last
price recorded for its coin at its timestamp. -/
theorem pivotChart_correct (rows : List Observation) :
    List.Sorted (· < ·) ((pivotChart rows).map Prod.fst)
    ∧ ((pivotChart rows).map Prod.fst).Perm
        ((rows.map (fun r => r.timestamp)).dedup)
    ∧ pivotChart rows
        = (tsIndex rows).map
            (fun t => (t, (colNames rows).map (fun c => (c, lastMatch t c rows)))) := by
  have hfst : (pivotChart rows).map Prod.fst = tsIndex rows := by
    simp [pivotChart, Function.comp_def]
  have hperm : (tsIndex rows).Perm ((rows.map (fun r => r.timestamp)).dedup) :=
    List.perm_insertionSort _ _
  have hsorted : List.Sorted (· ≤ ·) (tsIndex rows) :=
    List.sorted_insertionSort _ _
  have hnodup : (tsIndex rows).Nodup :=
    hperm.nodup_iff.mpr (List.nodup_dedup _)
  refine ⟨?_, ?_, ?_⟩
  · rw [hfst]; exact hsorted.lt_of_le hnodup
  · rw [hfst]; exact hperm
  · simp only [pivotChart, lookup_cells]

/-- C10: an id missing from the display-name table is not dropped: the
history row and the snapshot row both fall back to the raw id as the
display name, and both rows are present in the respective outputs. -/
theorem unknown_id_uses_raw_id (a : String) (info : Cleaned) (now : Nat)
    (live : List (String × Cleaned)) (h : List Observation)
    (hid : id_to_display.lookup a = none) :
    (mkRow now (a, info)).coin_name = a
    ∧ (snapRow (a, info)).coin = a
    ∧ ((a, info) ∈ live →
        mkRow now (a, info) ∈ update_history h now live
        ∧ snapRow (a, info) ∈ get_latest_snapshot_df live) := by
  refine ⟨by simp [mkRow, hid], by simp [snapRow, hid], fun hm => ⟨?_, ?_⟩⟩
  · rw [update_history_eq]
    exact List.mem_append_right _ (List.mem_map_of_mem _ hm)
  · exact List.mem_map_of_mem _ hm

/-- Witness for C10 at the unknown id "dogecoin". -/
theorem unknown_id_uses_raw_id_witness :
    (mkRow 0 ("dogecoin", Cleaned.mk 1 0)).coin_name = "dogecoin"
    ∧ (snapRow ("dogecoin", Cleaned.mk 1 0)).coin = "dogecoin"
    ∧ (mkRow 0 ("dogecoin", Cleaned.mk 1 0)
          ∈ update_history [] 0 [("dogecoin", Cleaned.mk 1 0)]
        ∧ snapRow ("dogecoin", Cleaned.mk 1 0)
            ∈ get_latest_snapshot_df [("dogecoin", Cleaned.mk 1 0)]) := by
  have hthm := unknown_id_uses_raw_id "dogecoin" (Cleaned.mk 1 0) 0
    [("dogecoin", Cleaned.mk 1 0)] [] (by rfl)
  exact ⟨hthm.1, hthm.2.1, hthm.2.2 (by simp)⟩

end CryptoDashboard
